import Mathlib

/-!
Shallow embedding of the MLOS optimizer core, translated from:
  * `mlos_core/mlos_core/optimizers/optimizer.py` (`BaseOptimizer`)
  * `source/Mlos.Python/mlos/Optimizers/RegressionModels/HomogeneousRandomForestRegressionModel.py`

Numbers are modelled with `ℚ` (exact arithmetic); a pandas `DataFrame` of
configurations is a `List Config`; a score column is a `List ℚ`; a possibly
missing cell is an `Option ℚ`.  Python exceptions are modelled with
`Except String`.  Abstract methods of the base class (`_register`,
`_suggest`) and external collaborators (the space adapter, numpy's global
random source, the per-tree regressors) are parameters of the embedding.
-/

namespace MlosSpec

/-- A space adapter, as consumed by `BaseOptimizer` (external collaborator):
original and target parameter spaces plus the two directional transforms.
`inverse_transform` may raise, which we model with `Except`. -/
structure SpaceAdapter (Space Config : Type) where
  orig_parameter_space : Space
  target_parameter_space : Space
  transform : List Config → List Config
  inverse_transform : List Config → Except String (List Config)

/-- One entry of `BaseOptimizer._observations`: the tuple
`(configurations, scores, context)` appended verbatim by `register`. -/
structure Observation (Config Ctx : Type) where
  configurations : List Config
  scores : List ℚ
  context : Option Ctx
deriving DecidableEq

/-- The state of a `BaseOptimizer`, following `BaseOptimizer.__init__`:
the original and optimizer-facing parameter spaces, the optional space
adapter, and the `_observations` / `_pending_observations` lists. -/
structure BaseOptimizer (Space Config Ctx : Type) where
  parameter_space : Space
  optimizer_parameter_space : Space
  space_adapter : Option (SpaceAdapter Space Config)
  observations : List (Observation Config Ctx)
  pending_observations : List (List Config × Option Ctx)

namespace BaseOptimizer

variable {Space Config Ctx : Type}

/-- `BaseOptimizer.__init__`: sets `optimizer_parameter_space` to the
adapter's target space when an adapter is supplied (otherwise to the
parameter space itself), and raises `ValueError` when a supplied adapter's
original space differs from the optimizer's parameter space. -/
def init [DecidableEq Space] (parameter_space : Space)
    (space_adapter : Option (SpaceAdapter Space Config)) :
    Except String (BaseOptimizer Space Config Ctx) :=
  let optimizer_parameter_space :=
    match space_adapter with
    | none => parameter_space
    | some adapter => adapter.target_parameter_space
  match space_adapter with
  | some adapter =>
    if adapter.orig_parameter_space ≠ parameter_space then
      .error "Given parameter space differs from the one given to space adapter"
    else
      .ok ⟨parameter_space, optimizer_parameter_space, space_adapter, [], []⟩
  | none => .ok ⟨parameter_space, optimizer_parameter_space, space_adapter, [], []⟩

/-- `BaseOptimizer.register`: appends `(configurations, scores, context)` to
`_observations`, then (after the adapter's `inverse_transform`, if an adapter
is present) delegates to the subclass's `_register`, here the parameter
`reg`.  Returns the new state together with the outcome of the delegated
call; the append happens before any of the fallible steps. -/
def register (reg : List Config → List ℚ → Option Ctx → Except String Unit)
    (s : BaseOptimizer Space Config Ctx)
    (configurations : List Config) (scores : List ℚ) (context : Option Ctx) :
    BaseOptimizer Space Config Ctx × Except String Unit :=
  let s' := { s with observations := s.observations ++ [⟨configurations, scores, context⟩] }
  match s.space_adapter with
  | none => (s', reg configurations scores context)
  | some adapter =>
    match adapter.inverse_transform configurations with
    | .error e => (s', .error e)
    | .ok configs => (s', reg configs scores context)

/-- `BaseOptimizer.suggest`: asks the subclass (`sug`, modelling `_suggest`)
for a configuration and forward-transforms it through the adapter when one
is present.  It does not touch the optimizer state. -/
def suggest (sug : Option Ctx → List Config)
    (s : BaseOptimizer Space Config Ctx) (context : Option Ctx) : List Config :=
  let configuration := sug context
  match s.space_adapter with
  | none => configuration
  | some adapter => adapter.transform configuration

/-- Modelled from the spec: `register_pending` is an abstract method of the
base class (its concrete implementations are not part of the sources here);
per the spec it records the configuration as "pending" without a score and
never touches the observation history. -/
def register_pending (s : BaseOptimizer Space Config Ctx)
    (configurations : List Config) (context : Option Ctx) :
    BaseOptimizer Space Config Ctx :=
  { s with pending_observations := s.pending_observations ++ [(configurations, context)] }

/-- `BaseOptimizer.get_observations`: raises on empty history; otherwise
concatenates the per-call configuration rows and score rows (pandas
`pd.concat`), pairs them up (`configs["score"] = scores`, positional thanks
to the index fast path), and raises `NotImplementedError` when any recorded
context is non-`None` (`pd.concat` over the contexts yields a non-`None`
frame exactly in that case). -/
def get_observations (s : BaseOptimizer Space Config Ctx) :
    Except String (List (Config × ℚ)) :=
  if s.observations.isEmpty then
    .error "No observations registered yet."
  else
    let configs := (s.observations.map (·.configurations)).flatten
    let scores := (s.observations.map (·.scores)).flatten
    if (s.observations.filterMap (·.context)).isEmpty then
      .ok (configs.zip scores)
    else
      .error "NotImplementedError"

/-- `DataFrame.nsmallest(1, columns='score', keep='first')` restricted to the
single-row case: the first row attaining the minimal score.  The fold keeps
the current best and replaces it only on a strictly smaller score, which is
exactly pandas' `keep='first'` tie-breaking. -/
def firstMin (r : Config × ℚ) (rs : List (Config × ℚ)) : Config × ℚ :=
  rs.foldl (fun best c => if c.2 < best.2 then c else best) r

/-- `observations.nsmallest(1, columns='score')` as a (zero- or one-row)
table. -/
def nsmallest1 (rows : List (Config × ℚ)) : List (Config × ℚ) :=
  match rows with
  | [] => []
  | r :: rs => [firstMin r rs]

/-- `BaseOptimizer.get_best_observation`: raises on empty history, otherwise
returns `get_observations().nsmallest(1, columns='score')`. -/
def get_best_observation (s : BaseOptimizer Space Config Ctx) :
    Except String (List (Config × ℚ)) :=
  if s.observations.isEmpty then
    .error "No observations registered yet."
  else
    match s.get_observations with
    | .error e => .error e
    | .ok observations => .ok (nsmallest1 observations)

/-- One call of the optimizer's public protocol, for reasoning about
interleavings of `register`, `suggest` and `register_pending`. -/
inductive OptCall (Config Ctx : Type) where
  | registerCall (configurations : List Config) (scores : List ℚ) (context : Option Ctx)
  | suggestCall (context : Option Ctx)
  | pendingCall (configurations : List Config) (context : Option Ctx)

/-- Runs a trace of protocol calls against the optimizer state (the caller
catches and ignores any exception, so the trace continues; state changes
made before an exception persist, as in Python). -/
def run (reg : List Config → List ℚ → Option Ctx → Except String Unit)
    (s : BaseOptimizer Space Config Ctx) :
    List (OptCall Config Ctx) → BaseOptimizer Space Config Ctx
  | [] => s
  | .registerCall c sc ctx :: rest => run reg (s.register reg c sc ctx).1 rest
  | .suggestCall _ :: rest => run reg s rest
  | .pendingCall c ctx :: rest => run reg (s.register_pending c ctx) rest

/-- The observations a trace appends: one per `register` call, in order. -/
def registeredOf (trace : List (OptCall Config Ctx)) : List (Observation Config Ctx) :=
  trace.filterMap fun call =>
    match call with
    | .registerCall c sc ctx => some ⟨c, sc, ctx⟩
    | _ => none

end BaseOptimizer

namespace Forest

/-- One row of the encoded feature frame: column name → cell, `none` being a
missing value (`NaN`). -/
def Row : Type := String → Option ℚ

/-- One ensemble member (a `DecisionTreeRegressionModel`), reduced to what
the ensemble's `fit` observes of it: the names of the dimensions of its
input space, and its external readiness check `should_fit` on a candidate
sample count. -/
structure Tree where
  inputDims : List String
  shouldFit : ℕ → Bool

/-- The part of `HomogeneousRandomForestRegressionModel` that `fit` reads:
the configured `samples_fraction_per_estimator` and the list
`_decision_trees` (whose position in the list is the member index `i`). -/
structure RFModel where
  samples_fraction_per_estimator : ℚ
  trees : List Tree

/-- numpy's global random source as `fit` uses it (external collaborator):
`np.random.seed(i)` replaces the global state, and
`np.random.randint(0, high, size)` draws `size` values in `[0, high)` from
the state, advancing it.  The embedding is parametric in the generator's
state type and functions. -/
structure NpRandom (σ : Type) where
  seed : ℕ → σ
  randint : σ → ℕ → ℕ → List ℕ × σ

/-- `math.ceil(samples_fraction_per_estimator * total_num_observations)`,
the `num_observations_per_estimator` of `fit`. -/
def num_observations_per_estimator (samples_fraction : ℚ) (total : ℕ) : ℕ :=
  ⌈samples_fraction * (total : ℚ)⌉.toNat

/-- `estimators_df.notnull().all(axis=1)` for one row: every cell of the
member's projection is present. -/
def notnullAll (dims : List String) (r : Row) : Bool :=
  dims.all fun d => (r d).isSome

/-- The original row indices surviving
`estimators_df[estimators_df.notnull().all(axis=1)]`: the member's
projection onto its input dimensions keeps, in order, the rows with no
missing value there. -/
def filteredIdx (dims : List String) (frame : List Row) : List ℕ :=
  (frame.enum.filter fun p => notnullAll dims p.2).map Prod.fst

/-- The data passed to one member's `tree.fit` call, recorded through row
indices of the original (unfiltered) frame:
`selected_observation_ids` are the drawn positions,
`feature_row_ids` the original rows behind
`filtered_observations.iloc[selected_observation_ids]`, and
`target_row_ids` (with `target_values`) the original rows behind
`target_values_pandas_frame.iloc[selected_observation_ids]`. -/
structure MemberFitCall where
  selected_observation_ids : List ℕ
  feature_row_ids : List ℕ
  target_row_ids : List ℕ
  target_values : List ℚ
deriving DecidableEq, Repr

/-- The body of `fit`'s per-tree loop for member `i`: project and filter the
frame, reseed the global random source with `i`, draw
`min(num_filtered_observations, num_observations_per_estimator)` row indices
with replacement, then either skip (`should_fit` says no) or fit the tree on
`filtered_observations.iloc[ids]` paired with
`target_values_pandas_frame.iloc[ids]`.  When the filtered frame is empty,
`np.random.randint(0, 0, 0)` raises `ValueError: low >= high`. -/
def fitTree {σ : Type} (env : NpRandom σ) (frame : List Row) (targets : List ℚ)
    (numPerEstimator : ℕ) (i : ℕ) (tree : Tree) (_st : σ) :
    Except String (Option MemberFitCall × σ) :=
  let fIdx := filteredIdx tree.inputDims frame
  let num_filtered := fIdx.length
  if num_filtered = 0 then
    .error "low >= high"
  else
    let drawn := env.randint (env.seed i) num_filtered (min num_filtered numPerEstimator)
    let ids := drawn.1
    if tree.shouldFit ids.length then
      .ok (some ⟨ids, ids.map (fun j => fIdx.getD j 0), ids,
        ids.map (fun j => targets.getD j 0)⟩, drawn.2)
    else
      .ok (none, drawn.2)

/-- `fit`'s loop over `enumerate(self._decision_trees)`, threading the global
random state; the first raised exception aborts the loop (as in Python). -/
def fitTrees {σ : Type} (env : NpRandom σ) (frame : List Row) (targets : List ℚ)
    (numPerEstimator : ℕ) :
    List (ℕ × Tree) → σ → Except String (List (Option MemberFitCall))
  | [], _ => .ok []
  | (i, t) :: rest, st =>
    match fitTree env frame targets numPerEstimator i t st with
    | .error e => .error e
    | .ok (call, st') =>
      match fitTrees env frame targets numPerEstimator rest st' with
      | .error e => .error e
      | .ok calls => .ok (call :: calls)

/-- `HomogeneousRandomForestRegressionModel.fit`: computes
`num_observations_per_estimator` from the row count and runs the per-tree
loop over the enumerated members.  The result records, per member, the data
its `tree.fit` received (`none` = member skipped). -/
def fit {σ : Type} (env : NpRandom σ) (m : RFModel) (frame : List Row)
    (targets : List ℚ) (st : σ) : Except String (List (Option MemberFitCall)) :=
  fitTrees env frame targets
    (num_observations_per_estimator m.samples_fraction_per_estimator frame.length)
    m.trees.enum st

/-- The `Prediction` record: a validity flag and, when valid, mean, variance
and support count (`none` models Python's `None` on an invalid
prediction). -/
structure Prediction where
  target_name : String
  valid : Bool
  mean : Option ℚ
  variance : Option ℚ
  count : Option ℕ
deriving DecidableEq, Repr

/-- The default used only to totalize list indexing (out-of-range access
raises in Python; theorems assume the member contract that rules it out). -/
def noPrediction : Prediction := ⟨"", false, none, none, none⟩

/-- The per-row member predictions collected by `predict` for one row, after
the `prediction.valid` filter. -/
def validPredictions (memberPredictions : List (List Prediction))
    (observation_id : ℕ) : List Prediction :=
  (memberPredictions.map fun preds => preds.getD observation_id noPrediction).filter
    (·.valid)

/-- The body of `predict`'s per-row loop: keep the valid member predictions;
if none, emit an invalid `Prediction` carrying only the ensemble's target
name; otherwise emit a valid one with `np.mean` of the valid members' means,
the law-of-total-variance combination
`mean(variance + mean²) − aggregate_mean²` over the valid members, the first
valid member's target name, and `count` = number of valid members. -/
def rowAggregate (target_name : String) (memberPredictions : List (List Prediction))
    (observation_id : ℕ) : Prediction :=
  let observation_predictions := validPredictions memberPredictions observation_id
  if observation_predictions.isEmpty then
    ⟨target_name, false, none, none, none⟩
  else
    let n : ℚ := observation_predictions.length
    let prediction_mean :=
      ((observation_predictions.map fun p => p.mean.getD 0).sum) / n
    let prediction_variance :=
      ((observation_predictions.map fun p =>
          p.variance.getD 0 + (p.mean.getD 0) ^ 2).sum) / n - prediction_mean ^ 2
    ⟨(observation_predictions.headD noPrediction).target_name, true,
      some prediction_mean, some prediction_variance,
      some observation_predictions.length⟩

/-- `HomogeneousRandomForestRegressionModel.predict`, given the per-member
prediction lists (`estimator.predict` applied to the encoded frame — one
prediction per row per member, per the member contract) and the row count of
the query frame: one aggregate `Prediction` per row, in row order. -/
def predict (target_name : String) (memberPredictions : List (List Prediction))
    (numRows : ℕ) : List Prediction :=
  (List.range numRows).map (rowAggregate target_name memberPredictions)

end Forest

/-! ## Concrete sample objects used by witnesses and counterexamples -/

/-- A sample space adapter over `ℕ` spaces and `ℕ` configurations whose
original space is `1` and target space is `2`. -/
def sampleAdapter : SpaceAdapter ℕ ℕ :=
  ⟨1, 2, fun c => c, fun c => .ok c⟩

/-- A subclass `_register` that always succeeds (models e.g. an optimizer
whose model update is a no-op). -/
def noopReg : List ℕ → List ℚ → Option ℕ → Except String Unit :=
  fun _ _ _ => .ok ()

/-- A fresh adapter-less optimizer state over `ℕ` spaces, `ℕ` configurations
and `ℕ` contexts. -/
def emptyOpt : BaseOptimizer ℕ ℕ ℕ := ⟨0, 0, none, [], []⟩

/-- A concrete random source over state `ℕ`: seeding stores the seed, and
each draw emits `size` copies of `state % high`, bumping the state. -/
def envW : Forest.NpRandom ℕ :=
  ⟨fun i => i, fun st h n => (List.replicate n (st % h), st + 1)⟩

/-- A degenerate random source over state `Unit` whose draws are all `0`; a
generator respecting `randint`'s range is forced to draw `0` whenever
`high = 1`. -/
def zeroDraw : Forest.NpRandom Unit :=
  ⟨fun _ => (), fun _ _ n => (List.replicate n 0, ())⟩

/-- A feature row with every cell present (value `1`). -/
def presentRow : Forest.Row := fun _ => some 1

/-- A feature row with every cell missing (`NaN`). -/
def missingRow : Forest.Row := fun _ => none

/-- A member over the single input dimension `x` whose readiness check
always accepts. -/
def oneTree : Forest.Tree := ⟨["x"], fun _ => true⟩

/-- A one-member forest with `samples_fraction_per_estimator = 1`. -/
def oneTreeModel : Forest.RFModel := ⟨1, [oneTree]⟩

/-! ## Claims about the base optimizer -/

/-- Claim C8: `BaseOptimizer` construction fails with a configuration error
whenever a space adapter is supplied whose declared original parameter space
is not equal to the optimizer's parameter space; when construction succeeds,
`optimizer_parameter_space` equals the adapter's target space if an adapter
is configured and equals the original parameter space otherwise. -/
theorem init_space_adapter_contract {Space Config Ctx : Type} [DecidableEq Space]
    (parameter_space : Space) (space_adapter : Option (SpaceAdapter Space Config)) :
    (∀ adapter, space_adapter = some adapter →
      adapter.orig_parameter_space ≠ parameter_space →
      (BaseOptimizer.init parameter_space space_adapter :
          Except String (BaseOptimizer Space Config Ctx)) =
        .error "Given parameter space differs from the one given to space adapter") ∧
    (∀ s : BaseOptimizer Space Config Ctx,
      BaseOptimizer.init parameter_space space_adapter = .ok s →
      (space_adapter = none → s.optimizer_parameter_space = parameter_space) ∧
      (∀ adapter, space_adapter = some adapter →
        s.optimizer_parameter_space = adapter.target_parameter_space)) := by
  constructor
  · intro adapter hsome hne
    subst hsome
    simp [BaseOptimizer.init, hne]
  · intro s hok
    cases hadapter : space_adapter with
    | none =>
      subst hadapter
      simp only [BaseOptimizer.init, Except.ok.injEq] at hok
      constructor
      · intro _; rw [← hok]
      · intro adapter h; cases h
    | some adapter =>
      subst hadapter
      simp only [BaseOptimizer.init] at hok
      by_cases hne : adapter.orig_parameter_space ≠ parameter_space
      · simp [hne] at hok
      · simp only [hne, if_false, Except.ok.injEq] at hok
        constructor
        · intro h; cases h
        · intro a ha
          cases ha
          rw [← hok]

/-- Witness for C8: with the sample adapter (original space `1`, target
space `2`) and parameter space `1`, construction succeeds and the optimizer
parameter space is the adapter's target space `2`. -/
theorem init_space_adapter_contract_witness :
    (⟨1, 2, some sampleAdapter, [], []⟩ :
      BaseOptimizer ℕ ℕ ℕ).optimizer_parameter_space = sampleAdapter.target_parameter_space :=
  ((init_space_adapter_contract 1 (some sampleAdapter)).2
    ⟨1, 2, some sampleAdapter, [], []⟩ rfl).2 sampleAdapter rfl

/-- Helper: `register` leaves every state component except `observations`
unchanged and appends the new observation to `observations`. -/
theorem register_observations_eq {Space Config Ctx : Type}
    (reg : List Config → List ℚ → Option Ctx → Except String Unit)
    (s : BaseOptimizer Space Config Ctx)
    (configurations : List Config) (scores : List ℚ) (context : Option Ctx) :
    (BaseOptimizer.register reg s configurations scores context).1 =
      { s with observations :=
          s.observations ++ [⟨configurations, scores, context⟩] } := by
  unfold BaseOptimizer.register
  cases s.space_adapter with
  | none => simp
  | some adapter =>
    cases h : adapter.inverse_transform configurations <;> simp [h]

/-- Claim C10: `register` is not atomic on error: the observation is appended
to the history before the space-adapter inverse transform and the subclass's
`_register` run, so the post-state records it no matter whether the returned
outcome is a success or a propagated exception. -/
theorem register_appends_before_delegation {Space Config Ctx : Type}
    (reg : List Config → List ℚ → Option Ctx → Except String Unit)
    (s : BaseOptimizer Space Config Ctx)
    (configurations : List Config) (scores : List ℚ) (context : Option Ctx) :
    (BaseOptimizer.register reg s configurations scores context).1.observations =
      s.observations ++ [⟨configurations, scores, context⟩] := by
  rw [register_observations_eq]

/-- Claim C5, counterexample: The claim says the base-class `register` wrapper
fails on a row-count mismatch and on a non-empty context; but with two
configuration rows, one score and a non-`None` context it succeeds (the
wrapper itself performs no validation). -/
theorem register_validation_counterexample :
    (BaseOptimizer.register noopReg emptyOpt [1, 2] [5] (some 7)).2 = .ok () := rfl

/-- Claim C5, amended: The base-class `register` wrapper performs no
validation of its own: whenever the subclass's `_register` and the adapter's
`inverse_transform` (if an adapter is present) succeed, `register` succeeds —
for any context (including a supplied one) and any configuration/score row
counts; its only failures are those propagated from these two delegated
calls. -/
theorem register_wrapper_no_validation {Space Config Ctx : Type}
    (reg : List Config → List ℚ → Option Ctx → Except String Unit)
    (s : BaseOptimizer Space Config Ctx)
    (configurations : List Config) (scores : List ℚ) (context : Option Ctx)
    (hreg : ∀ c sc ctx, reg c sc ctx = .ok ())
    (hadapter : ∀ adapter, s.space_adapter = some adapter →
      ∃ configs, adapter.inverse_transform configurations = .ok configs) :
    (BaseOptimizer.register reg s configurations scores context).2 = .ok () := by
  unfold BaseOptimizer.register
  cases hsa : s.space_adapter with
  | none => exact hreg _ _ _
  | some adapter =>
    obtain ⟨configs, hconfigs⟩ := hadapter adapter hsa
    simp [hconfigs, hreg]

/-- Witness for the amended C5: a call with mismatched row counts and a
supplied context succeeds when the delegated `_register` does. -/
theorem register_wrapper_no_validation_witness :
    (BaseOptimizer.register noopReg emptyOpt [3, 4, 5] [9] (some 1)).2 = .ok () :=
  register_wrapper_no_validation noopReg emptyOpt [3, 4, 5] [9] (some 1)
    (fun _ _ _ => rfl) (fun adapter h => by cases h)

/-- Helper: running any trace of protocol calls only appends to the
observation history, one entry per `register` call, in call order. -/
theorem run_observations {Space Config Ctx : Type}
    (reg : List Config → List ℚ → Option Ctx → Except String Unit)
    (trace : List (BaseOptimizer.OptCall Config Ctx)) :
    ∀ s : BaseOptimizer Space Config Ctx,
      (BaseOptimizer.run reg s trace).observations =
        s.observations ++ BaseOptimizer.registeredOf trace := by
  induction trace with
  | nil =>
    intro s
    simp [BaseOptimizer.run, BaseOptimizer.registeredOf]
  | cons call rest ih =>
    intro s
    cases call with
    | registerCall c sc ctx =>
      simp [BaseOptimizer.run, BaseOptimizer.registeredOf, ih,
        register_observations_eq, List.filterMap_cons]
    | suggestCall ctx =>
      simp [BaseOptimizer.run, BaseOptimizer.registeredOf, ih, List.filterMap_cons]
    | pendingCall c ctx =>
      simp [BaseOptimizer.run, BaseOptimizer.registeredOf, BaseOptimizer.register_pending,
        ih, List.filterMap_cons]

/-- Helper: zipping two concatenations piecewise, when the pieces are
aligned. -/
theorem zip_flatten_aligned {Config Ctx : Type} :
    ∀ obs : List (Observation Config Ctx),
      (∀ o ∈ obs, o.configurations.length = o.scores.length) →
      ((obs.map (·.configurations)).flatten).zip ((obs.map (·.scores)).flatten) =
        (obs.map fun o => o.configurations.zip o.scores).flatten := by
  intro obs
  induction obs with
  | nil => intro _; simp
  | cons o rest ih =>
    intro h
    simp only [List.map_cons, List.flatten_cons]
    rw [List.zip_append (h o (List.mem_cons_self o rest))]
    rw [ih fun x hx => h x (List.mem_cons_of_mem o hx)]

/-- Helper: a concatenation of single-row pieces has one row per piece. -/
theorem flatten_length_of_singletons {γ : Type} :
    ∀ l : List (List γ), (∀ x ∈ l, x.length = 1) → l.flatten.length = l.length := by
  intro l
  induction l with
  | nil => intro _; simp
  | cons x rest ih =>
    intro h
    simp [h x (List.mem_cons_self x rest), ih fun y hy => h y (List.mem_cons_of_mem x hy)]
    omega

/-- Claim C7, counterexample: From a fresh optimizer, a single `register` call
carrying two configuration rows yields two rows from `get_observations`, not
one row per call: "calling register k times yields exactly k rows" fails for
`k = 1`. -/
theorem register_k_rows_counterexample :
    ((BaseOptimizer.run noopReg emptyOpt
        [BaseOptimizer.OptCall.registerCall [1, 2] [(5 : ℚ), 6] none]).get_observations).map
        List.length = .ok 2 ∧
    ((BaseOptimizer.run noopReg emptyOpt
        [BaseOptimizer.OptCall.registerCall [1, 2] [(5 : ℚ), 6] none]).get_observations).map
        List.length ≠ .ok 1 := by
  have e : ((BaseOptimizer.run noopReg emptyOpt
      [BaseOptimizer.OptCall.registerCall [1, 2] [(5 : ℚ), 6] none]).get_observations).map
      List.length = .ok 2 := rfl
  refine ⟨e, ?_⟩
  rw [e]
  intro hcontra
  injection hcontra with h21
  omega

/-- Claim C7, amended: `register` is append-only: after any trace of calls the
observation history is the original history extended by exactly the
registered `(configurations, scores, context)` entries, in call order,
regardless of interleaving with `suggest` or `register_pending` — nothing is
deleted or mutated.  From a fresh optimizer, `get_observations` returns the
registered configuration rows paired with their scores, concatenated in call
order; the row count equals the number of `register` calls when every call
carries a single configuration row (in general it is the total number of
rows across calls). -/
theorem register_append_only {Space Config Ctx : Type}
    (reg : List Config → List ℚ → Option Ctx → Except String Unit)
    (trace : List (BaseOptimizer.OptCall Config Ctx))
    (s : BaseOptimizer Space Config Ctx) :
    ((BaseOptimizer.run reg s trace).observations =
      s.observations ++ BaseOptimizer.registeredOf trace) ∧
    (s.observations = [] → BaseOptimizer.registeredOf trace ≠ [] →
      (∀ o ∈ BaseOptimizer.registeredOf trace,
        o.configurations.length = o.scores.length ∧ o.context = none) →
      (BaseOptimizer.run reg s trace).get_observations =
        .ok (((BaseOptimizer.registeredOf trace).map
          fun o => o.configurations.zip o.scores).flatten) ∧
      ((∀ o ∈ BaseOptimizer.registeredOf trace, o.configurations.length = 1) →
        ∀ rows, (BaseOptimizer.run reg s trace).get_observations = .ok rows →
          rows.length = (BaseOptimizer.registeredOf trace).length)) := by
  refine ⟨run_observations reg trace s, ?_⟩
  intro hs hne h
  have hobs : (BaseOptimizer.run reg s trace).observations =
      BaseOptimizer.registeredOf trace := by
    rw [run_observations reg trace s, hs, List.nil_append]
  have hok : (BaseOptimizer.run reg s trace).get_observations =
      .ok (((BaseOptimizer.registeredOf trace).map
        fun o => o.configurations.zip o.scores).flatten) := by
    unfold BaseOptimizer.get_observations
    rw [hobs]
    rw [if_neg (by simpa [List.isEmpty_iff] using hne)]
    rw [if_pos]
    · rw [zip_flatten_aligned _ fun o ho => (h o ho).1]
    · simp only [List.isEmpty_iff, List.filterMap_eq_nil_iff]
      intro o ho
      simp [(h o ho).2]
  refine ⟨hok, ?_⟩
  intro hsingle rows hrows
  rw [hok] at hrows
  cases hrows
  rw [flatten_length_of_singletons, List.length_map]
  intro x hx
  simp only [List.mem_map] at hx
  obtain ⟨o, ho, rfl⟩ := hx
  have h1 := hsingle o ho
  have h2 := (h o ho).1
  rw [List.length_zip]
  omega

/-- Witness for the amended C7: two single-row `register` calls interleaved
with a `register_pending` call yield exactly the two registered rows, in call
order. -/
theorem register_append_only_witness :
    (BaseOptimizer.run noopReg emptyOpt
        [BaseOptimizer.OptCall.registerCall [1] [(5 : ℚ)] none,
         BaseOptimizer.OptCall.pendingCall [9] none,
         BaseOptimizer.OptCall.registerCall [2] [(6 : ℚ)] none]).get_observations =
      .ok [(1, (5 : ℚ)), (2, (6 : ℚ))] := by
  have h := ((register_append_only noopReg
    [BaseOptimizer.OptCall.registerCall [1] [(5 : ℚ)] none,
     BaseOptimizer.OptCall.pendingCall [9] none,
     BaseOptimizer.OptCall.registerCall [2] [(6 : ℚ)] none] emptyOpt).2
    rfl (by decide) (by decide)).1
  simpa using h

/-- Helper: the fold behind `nsmallest1` returns a score no larger than any
score in the scanned rows (including the starting row). -/
theorem firstMin_le {Config : Type} :
    ∀ (rs : List (Config × ℚ)) (r : Config × ℚ),
      ∀ x ∈ r :: rs, (BaseOptimizer.firstMin r rs).2 ≤ x.2 := by
  intro rs
  induction rs with
  | nil =>
    intro r x hx
    rw [List.mem_singleton.mp hx]
    simp [BaseOptimizer.firstMin]
  | cons c rs ih =>
    intro r x hx
    have hfold : BaseOptimizer.firstMin r (c :: rs) =
        BaseOptimizer.firstMin (if c.2 < r.2 then c else r) rs := rfl
    have hr' : (if c.2 < r.2 then c else r).2 ≤ r.2 := by
      by_cases hc : c.2 < r.2 <;> simp [hc]
      exact le_of_lt hc
    have hc' : (if c.2 < r.2 then c else r).2 ≤ c.2 := by
      by_cases hc : c.2 < r.2 <;> simp [hc]
      exact le_of_not_lt hc
    have hhead := ih (if c.2 < r.2 then c else r) _
      (List.mem_cons_self (if c.2 < r.2 then c else r) rs)
    simp only [List.mem_cons] at hx
    rcases hx with h | h | h
    · rw [hfold, h]
      exact le_trans hhead hr'
    · rw [hfold, h]
      exact le_trans hhead hc'
    · rw [hfold]
      exact ih (if c.2 < r.2 then c else r) x (List.mem_cons_of_mem _ h)

/-- Helper: the fold behind `nsmallest1` returns the *first* row attaining
the minimum: every row strictly before it in the table has a strictly larger
score. -/
theorem firstMin_first {Config : Type} :
    ∀ (rs : List (Config × ℚ)) (r : Config × ℚ),
      ∃ l₁ l₂, r :: rs = l₁ ++ BaseOptimizer.firstMin r rs :: l₂ ∧
        ∀ x ∈ l₁, (BaseOptimizer.firstMin r rs).2 < x.2 := by
  intro rs
  induction rs with
  | nil =>
    intro r
    exact ⟨[], [], rfl, by simp⟩
  | cons c rs ih =>
    intro r
    have hfold : BaseOptimizer.firstMin r (c :: rs) =
        BaseOptimizer.firstMin (if c.2 < r.2 then c else r) rs := rfl
    by_cases hc : c.2 < r.2
    · -- the head is replaced by `c` before scanning `rs`
      obtain ⟨l₁, l₂, hdecomp, hstrict⟩ := ih c
      have hbc : (BaseOptimizer.firstMin c rs).2 ≤ c.2 :=
        firstMin_le rs c c (List.mem_cons_self c rs)
      refine ⟨r :: l₁, l₂, ?_, ?_⟩
      · rw [hfold, if_pos hc]
        rw [List.cons_append, ← hdecomp]
      · intro x hx
        rw [hfold, if_pos hc]
        simp only [List.mem_cons] at hx
        rcases hx with h | h
        · rw [h]
          exact lt_of_le_of_lt hbc hc
        · exact hstrict x h
    · -- the head survives the comparison with `c`
      obtain ⟨l₁, l₂, hdecomp, hstrict⟩ := ih r
      rw [hfold, if_neg hc]
      cases l₁ with
      | nil =>
        -- the minimum is the head row itself
        have hb : BaseOptimizer.firstMin r rs = r := by
          have := hdecomp
          simp only [List.nil_append] at this
          exact (List.cons.injEq _ _ _ _ ▸ this).1.symm
        refine ⟨[], c :: l₂, ?_, by simp⟩
        simp only [List.nil_append] at hdecomp ⊢
        rw [hb] at hdecomp ⊢
        have hrs : rs = l₂ := (List.cons.injEq _ _ _ _ ▸ hdecomp).2
        rw [← hrs]
      | cons a l₁' =>
        have hinj : a = r ∧ rs = l₁' ++ BaseOptimizer.firstMin r rs :: l₂ := by
          have := hdecomp
          simp only [List.cons_append] at this
          exact ⟨((List.cons.injEq _ _ _ _ ▸ this).1).symm,
            (List.cons.injEq _ _ _ _ ▸ this).2⟩
        refine ⟨r :: c :: l₁', l₂, ?_, ?_⟩
        · rw [List.cons_append, List.cons_append, ← hinj.2]
        · intro x hx
          have hbr : (BaseOptimizer.firstMin r rs).2 < r.2 :=
            hstrict r (hinj.1 ▸ List.mem_cons_self a l₁')
          simp only [List.mem_cons] at hx
          rcases hx with h | h | h
          · rw [h]; exact hbr
          · rw [h]; exact lt_of_lt_of_le hbr (le_of_not_lt hc)
          · exact hstrict x (List.mem_cons_of_mem a h)

/-- Claim C6: For every non-empty observation history, `get_best_observation`
returns a single-row table whose score is ≤ the score of every row of
`get_observations`, and among rows attaining the minimal score it is the
first in insertion order (every earlier row has a strictly larger score);
for an empty history both calls fail with the "no observations" error. -/
theorem get_best_observation_spec {Space Config Ctx : Type}
    (s : BaseOptimizer Space Config Ctx) :
    (s.observations = [] →
      s.get_best_observation = .error "No observations registered yet." ∧
      s.get_observations = .error "No observations registered yet.") ∧
    (∀ rows, s.get_observations = .ok rows → rows ≠ [] →
      ∃ b l₁ l₂, s.get_best_observation = .ok [b] ∧
        (∀ x ∈ rows, b.2 ≤ x.2) ∧
        rows = l₁ ++ b :: l₂ ∧ (∀ x ∈ l₁, b.2 < x.2)) := by
  constructor
  · intro hs
    constructor
    · unfold BaseOptimizer.get_best_observation
      rw [if_pos (by simp [hs])]
    · unfold BaseOptimizer.get_observations
      rw [if_pos (by simp [hs])]
  · intro rows hrows hne
    have hsne : ¬ s.observations.isEmpty := by
      intro hcontra
      unfold BaseOptimizer.get_observations at hrows
      rw [if_pos hcontra] at hrows
      cases hrows
    have hbest : s.get_best_observation = .ok (BaseOptimizer.nsmallest1 rows) := by
      unfold BaseOptimizer.get_best_observation
      rw [if_neg hsne, hrows]
    cases rows with
    | nil => exact absurd rfl hne
    | cons r rs =>
      obtain ⟨l₁, l₂, hdecomp, hstrict⟩ := firstMin_first rs r
      refine ⟨BaseOptimizer.firstMin r rs, l₁, l₂, ?_, ?_, hdecomp, hstrict⟩
      · rw [hbest]
        rfl
      · intro x hx
        exact firstMin_le rs r x hx

/-- Witness for C6: a three-row history with a tie on the minimal score `3`
returns a single row whose score bounds every row, with every earlier row
strictly larger. -/
theorem get_best_observation_spec_witness :
    ∃ b l₁ l₂,
      (⟨0, 0, none, [⟨[1], [7], none⟩, ⟨[2], [3], none⟩, ⟨[3], [3], none⟩], []⟩ :
          BaseOptimizer ℕ ℕ ℕ).get_best_observation = .ok [b] ∧
      (∀ x ∈ [((1 : ℕ), (7 : ℚ)), (2, 3), (3, 3)], b.2 ≤ x.2) ∧
      [((1 : ℕ), (7 : ℚ)), (2, 3), (3, 3)] = l₁ ++ b :: l₂ ∧
      (∀ x ∈ l₁, b.2 < x.2) :=
  (get_best_observation_spec
    (⟨0, 0, none, [⟨[1], [7], none⟩, ⟨[2], [3], none⟩, ⟨[3], [3], none⟩], []⟩ :
      BaseOptimizer ℕ ℕ ℕ)).2 [(1, 7), (2, 3), (3, 3)] rfl (by simp)

/-! ## Claims about the ensemble regression model -/

/-- Helper: indexing `predict`'s output inside the row range gives the
per-row aggregate. -/
theorem predict_getD (target_name : String)
    (memberPredictions : List (List Forest.Prediction)) (numRows observation_id : ℕ)
    (h : observation_id < numRows) :
    (Forest.predict target_name memberPredictions numRows).getD observation_id
        Forest.noPrediction =
      Forest.rowAggregate target_name memberPredictions observation_id := by
  unfold Forest.predict
  rw [List.getD_eq_getElem?_getD, List.getElem?_map, List.getElem?_range h]
  rfl

/-- Claim C1: For every feature table passed to the ensemble's `predict`, the
result has exactly one `Prediction` per input row in input order; for each
row, if no member prediction is valid the emitted `Prediction` has
`valid = false` and carries only the target name, and otherwise it is valid
with mean the arithmetic mean of the valid members' means, variance
`mean(member_variance + member_mean²) − aggregate_mean²` over the valid
members, and count the number of valid members. -/
theorem predict_aggregation_spec (target_name : String)
    (memberPredictions : List (List Forest.Prediction)) (numRows observation_id : ℕ)
    (hrow : observation_id < numRows) :
    (Forest.predict target_name memberPredictions numRows).length = numRows ∧
    (Forest.validPredictions memberPredictions observation_id = [] →
      (Forest.predict target_name memberPredictions numRows).getD observation_id
          Forest.noPrediction = ⟨target_name, false, none, none, none⟩) ∧
    (Forest.validPredictions memberPredictions observation_id ≠ [] →
      (Forest.predict target_name memberPredictions numRows).getD observation_id
          Forest.noPrediction =
        ⟨((Forest.validPredictions memberPredictions observation_id).headD
            Forest.noPrediction).target_name, true,
          some (((Forest.validPredictions memberPredictions observation_id).map
              fun p => p.mean.getD 0).sum /
            ((Forest.validPredictions memberPredictions observation_id).length : ℚ)),
          some ((((Forest.validPredictions memberPredictions observation_id).map
              fun p => p.variance.getD 0 + p.mean.getD 0 ^ 2).sum /
            ((Forest.validPredictions memberPredictions observation_id).length : ℚ)) -
            (((Forest.validPredictions memberPredictions observation_id).map
                fun p => p.mean.getD 0).sum /
              ((Forest.validPredictions memberPredictions observation_id).length : ℚ)) ^ 2),
          some (Forest.validPredictions memberPredictions observation_id).length⟩) := by
  refine ⟨by simp [Forest.predict], ?_, ?_⟩
  · intro hempty
    rw [predict_getD _ _ _ _ hrow]
    unfold Forest.rowAggregate
    rw [if_pos (by simp [hempty])]
  · intro hne
    rw [predict_getD _ _ _ _ hrow]
    unfold Forest.rowAggregate
    rw [if_neg (by simpa [List.isEmpty_iff] using hne)]

/-- Witness for C1: two members, the first invalid on the only row, the
second valid with mean `4` and variance `2`; the aggregate is valid with
mean `4`, variance `2` and count `1`. -/
theorem predict_aggregation_spec_witness :
    (Forest.predict "y" [[⟨"y", false, none, none, none⟩],
        [⟨"y", true, some 4, some 2, some 3⟩]] 1).getD 0 Forest.noPrediction =
      ⟨"y", true, some 4, some 2, some 1⟩ := by
  have h := (predict_aggregation_spec "y"
    [[⟨"y", false, none, none, none⟩], [⟨"y", true, some 4, some 2, some 3⟩]] 1 0
    (by norm_num)).2.2 (by decide)
  rw [h]
  norm_num [Forest.validPredictions]

/-- Helper: squared sum is bounded by length times sum of squares
(discrete Cauchy–Schwarz against the all-ones vector, by induction). -/
theorem sq_sum_le_length_mul_sum_sq :
    ∀ l : List ℚ, l.sum ^ 2 ≤ (l.length : ℚ) * (l.map fun m => m ^ 2).sum := by
  intro l
  induction l with
  | nil => simp
  | cons a t ih =>
    rcases eq_or_ne t [] with rfl | htne
    · simp
    · have hn : 0 < (t.length : ℚ) := by exact_mod_cast List.length_pos.mpr htne
      simp only [List.sum_cons, List.length_cons, List.map_cons, List.sum_cons]
      push_cast
      have hE : 0 ≤ (t.length : ℚ) * (List.map (fun m => m ^ 2) t).sum - t.sum ^ 2 :=
        sub_nonneg.mpr ih
      have key : 0 ≤ ((t.length : ℚ) * a - t.sum) ^ 2 := sq_nonneg _
      have hGn : (t.length : ℚ) *
          (((t.length : ℚ) + 1) * (a ^ 2 + (List.map (fun m => m ^ 2) t).sum) -
            (a + t.sum) ^ 2) =
          ((t.length : ℚ) * a - t.sum) ^ 2 +
            ((t.length : ℚ) * (List.map (fun m => m ^ 2) t).sum - t.sum ^ 2) *
              (1 + (t.length : ℚ)) := by
        ring
      have hnG : (t.length : ℚ) * 0 ≤ (t.length : ℚ) *
          (((t.length : ℚ) + 1) * (a ^ 2 + (List.map (fun m => m ^ 2) t).sum) -
            (a + t.sum) ^ 2) := by
        rw [mul_zero, hGn]
        nlinarith [key, hE, hn]
      have := (mul_le_mul_left hn).mp hnG
      linarith

/-- Helper: the squared mean is at most the mean of the squares. -/
theorem sq_mean_le_mean_sq (l : List ℚ) (hne : l ≠ []) :
    (l.sum / (l.length : ℚ)) ^ 2 ≤ (l.map fun m => m ^ 2).sum / (l.length : ℚ) := by
  have hn : 0 < ((l.length : ℚ)) := by
    exact_mod_cast List.length_pos.mpr hne
  rw [div_pow, div_le_div_iff₀ (by positivity) hn]
  nlinarith [sq_sum_le_length_mul_sum_sq l, hn]

/-- Helper: mapped sums split over pointwise addition. -/
theorem sum_map_add_split (l : List Forest.Prediction) (f g : Forest.Prediction → ℚ) :
    (l.map fun p => f p + g p).sum = (l.map f).sum + (l.map g).sum := by
  induction l with
  | nil => simp
  | cons a t ih =>
    simp only [List.map_cons, List.sum_cons, ih]
    ring

/-- Claim C9: For every query row with at least one valid member prediction
whose valid members all have non-negative variance, the aggregate variance
`mean(member_variance + member_mean²) − aggregate_mean²` computed by
`predict` is non-negative (exact arithmetic). -/
theorem predict_variance_nonneg (target_name : String)
    (memberPredictions : List (List Forest.Prediction)) (numRows observation_id : ℕ)
    (hrow : observation_id < numRows)
    (hne : Forest.validPredictions memberPredictions observation_id ≠ [])
    (hvar : ∀ p ∈ Forest.validPredictions memberPredictions observation_id,
      0 ≤ p.variance.getD 0) :
    ∃ v, ((Forest.predict target_name memberPredictions numRows).getD observation_id
        Forest.noPrediction).variance = some v ∧ 0 ≤ v := by
  rw [predict_getD _ _ _ _ hrow]
  unfold Forest.rowAggregate
  rw [if_neg (by simpa [List.isEmpty_iff] using hne)]
  refine ⟨_, rfl, ?_⟩
  have hsplit := sum_map_add_split (Forest.validPredictions memberPredictions observation_id)
    (fun p => p.variance.getD 0) (fun p => p.mean.getD 0 ^ 2)
  rw [hsplit, add_div]
  have hn : 0 < ((Forest.validPredictions memberPredictions observation_id).length : ℚ) := by
    exact_mod_cast List.length_pos.mpr hne
  have hA : 0 ≤ ((Forest.validPredictions memberPredictions observation_id).map
      fun p => p.variance.getD 0).sum / ((Forest.validPredictions memberPredictions
        observation_id).length : ℚ) :=
    div_nonneg (List.sum_nonneg (by
      intro x hx
      simp only [List.mem_map] at hx
      obtain ⟨p, hp, rfl⟩ := hx
      exact hvar p hp)) (le_of_lt hn)
  have hB := sq_mean_le_mean_sq ((Forest.validPredictions memberPredictions
      observation_id).map fun p => p.mean.getD 0) (by simpa using hne)
  rw [List.map_map, List.length_map] at hB
  have hB' : (((Forest.validPredictions memberPredictions observation_id).map
        fun p => p.mean.getD 0).sum /
      ((Forest.validPredictions memberPredictions observation_id).length : ℚ)) ^ 2 ≤
      ((Forest.validPredictions memberPredictions observation_id).map
        fun p => p.mean.getD 0 ^ 2).sum /
      ((Forest.validPredictions memberPredictions observation_id).length : ℚ) := hB
  linarith [hA, hB']

/-- Witness for C9: two valid members with means `1` and `3` and zero
variances; the aggregate variance is the spread of the means,
`(1 + 9)/2 − 4 = 1 ≥ 0`. -/
theorem predict_variance_nonneg_witness :
    ∃ v, ((Forest.predict "y" [[⟨"y", true, some 1, some 0, some 1⟩],
        [⟨"y", true, some 3, some 0, some 1⟩]] 1).getD 0
        Forest.noPrediction).variance = some v ∧ 0 ≤ v :=
  predict_variance_nonneg "y"
    [[⟨"y", true, some 1, some 0, some 1⟩], [⟨"y", true, some 3, some 0, some 1⟩]] 1 0
    (by norm_num) (by decide) (by decide)

/-- Helper: the per-member fit step ignores the incoming global random
state — `np.random.seed(i)` overwrites it before any draw. -/
theorem fitTree_state_irrelevant {σ : Type} (env : Forest.NpRandom σ)
    (frame : List Forest.Row) (targets : List ℚ) (k i : ℕ) (t : Forest.Tree)
    (st st' : σ) :
    Forest.fitTree env frame targets k i t st =
      Forest.fitTree env frame targets k i t st' := rfl

/-- Helper: a successful fit loop yields one entry per processed member, and
the entry of the member processed j-th is the per-member step's outcome —
independent of the random state threaded into the loop. -/
theorem fitTrees_ok_get {σ : Type} (env : Forest.NpRandom σ) (frame : List Forest.Row)
    (targets : List ℚ) (k : ℕ) :
    ∀ (l : List (ℕ × Forest.Tree)) (st st₀ : σ) (r : List (Option Forest.MemberFitCall)),
      Forest.fitTrees env frame targets k l st = .ok r →
      r.length = l.length ∧
      ∀ j (hj : j < l.length),
        Except.ok (r.getD j none) =
          (Forest.fitTree env frame targets k (l.get ⟨j, hj⟩).1 (l.get ⟨j, hj⟩).2
            st₀).map Prod.fst := by
  intro l
  induction l with
  | nil =>
    intro st st₀ r hr
    simp only [Forest.fitTrees] at hr
    cases hr
    exact ⟨rfl, fun j hj => absurd hj (by simp)⟩
  | cons p rest ih =>
    intro st st₀ r hr
    obtain ⟨i, t⟩ := p
    simp only [Forest.fitTrees] at hr
    cases hstep : Forest.fitTree env frame targets k i t st with
    | error e => rw [hstep] at hr; cases hr
    | ok callst =>
      obtain ⟨call, st'⟩ := callst
      rw [hstep] at hr
      dsimp only at hr
      cases hrest : Forest.fitTrees env frame targets k rest st' with
      | error e => rw [hrest] at hr; cases hr
      | ok calls =>
        rw [hrest] at hr
        dsimp only at hr
        simp only [Except.ok.injEq] at hr
        subst hr
        obtain ⟨hlen, hget⟩ := ih st' st₀ calls hrest
        refine ⟨by simp [hlen], ?_⟩
        intro j hj
        cases j with
        | zero =>
          have hhead : ((i, t) :: rest).get ⟨0, hj⟩ = (i, t) := rfl
          rw [hhead, fitTree_state_irrelevant env frame targets k i t st₀ st, hstep]
          rfl
        | succ j' =>
          exact hget j' (Nat.lt_of_succ_lt_succ hj)

/-- Claim C4: Ensemble fit is deterministic per member: with the random source
reseeded with the member index `i` before drawing
`min(filtered_row_count, ceil(samples_fraction × total_rows))` row indices,
the member processed at any position, in any processing order, from any
incoming random state, receives the same selected row-index subset on
identical feature/target data; the number of drawn indices is exactly that
minimum. -/
theorem fit_deterministic_per_member {σ : Type} (env : Forest.NpRandom σ)
    (frame : List Forest.Row) (targets : List ℚ) (samples_fraction : ℚ) (k : ℕ)
    (hk : k = Forest.num_observations_per_estimator samples_fraction frame.length)
    (l₁ l₂ : List (ℕ × Forest.Tree)) (st₁ st₂ : σ)
    (r₁ r₂ : List (Option Forest.MemberFitCall))
    (h₁ : Forest.fitTrees env frame targets k l₁ st₁ = .ok r₁)
    (h₂ : Forest.fitTrees env frame targets k l₂ st₂ = .ok r₂)
    (j₁ j₂ : ℕ) (hj₁ : j₁ < l₁.length) (hj₂ : j₂ < l₂.length)
    (hsame : l₁.get ⟨j₁, hj₁⟩ = l₂.get ⟨j₂, hj₂⟩)
    (hdrawlen : ∀ (st : σ) (h n : ℕ), ((env.randint st h n).1).length = n) :
    r₁.getD j₁ none = r₂.getD j₂ none ∧
    (∀ call, r₁.getD j₁ none = some call →
      call.selected_observation_ids.length =
        min (Forest.filteredIdx (l₁.get ⟨j₁, hj₁⟩).2.inputDims frame).length k) := by
  obtain ⟨-, hget₁⟩ := fitTrees_ok_get env frame targets k l₁ st₁ st₁ r₁ h₁
  obtain ⟨-, hget₂⟩ := fitTrees_ok_get env frame targets k l₂ st₂ st₁ r₂ h₂
  have e₁ := hget₁ j₁ hj₁
  have e₂ := hget₂ j₂ hj₂
  rw [← hsame] at e₂
  constructor
  · exact Except.ok.inj (e₁.trans e₂.symm)
  · intro call hcall
    rw [hcall] at e₁
    unfold Forest.fitTree at e₁
    by_cases hnf :
        (Forest.filteredIdx (l₁.get ⟨j₁, hj₁⟩).2.inputDims frame).length = 0
    · rw [if_pos hnf] at e₁
      simp [Except.map] at e₁
    · rw [if_neg hnf] at e₁
      by_cases hsf : (l₁.get ⟨j₁, hj₁⟩).2.shouldFit
          ((env.randint (env.seed (l₁.get ⟨j₁, hj₁⟩).1)
            (Forest.filteredIdx (l₁.get ⟨j₁, hj₁⟩).2.inputDims frame).length
            (min (Forest.filteredIdx (l₁.get ⟨j₁, hj₁⟩).2.inputDims frame).length
              k)).1.length) = true
      · rw [if_pos hsf] at e₁
        simp only [Except.map, Except.ok.injEq, Option.some.injEq] at e₁
        rw [e₁]
        exact hdrawlen _ _ _
      · rw [if_neg hsf] at e₁
        simp [Except.map] at e₁

/-- Witness for C4: the member with index `0` receives the same drawn subset
whether it is processed first (from state `5`) or second (from state `9`). -/
theorem fit_deterministic_per_member_witness :
    ∃ r₁ r₂,
      Forest.fitTrees envW [presentRow, presentRow] [10, 20] 2
        [(0, oneTree), (1, oneTree)] 5 = .ok r₁ ∧
      Forest.fitTrees envW [presentRow, presentRow] [10, 20] 2
        [(1, oneTree), (0, oneTree)] 9 = .ok r₂ ∧
      r₁.getD 0 none = r₂.getD 1 none := by
  refine ⟨_, _, rfl, rfl, ?_⟩
  exact (fit_deterministic_per_member envW [presentRow, presentRow] [10, 20] 1 2
    (by simp [Forest.num_observations_per_estimator])
    [(0, oneTree), (1, oneTree)] [(1, oneTree), (0, oneTree)] 5 9 _ _ rfl rfl
    0 1 (by norm_num) (by norm_num) rfl
    (fun st h n => List.length_replicate n (st % h))).1

/-- Claim C2, code bug, evaluating the code at the failing input: With one member over
dimension `x`, two observations of which the first has `x` missing, targets
`[10, 20]`, and any draw (forced to `[0]` since only one row survives the
filter), the member's `fit` receives the features of original row `1` but
the target of original row `0`: the feature rows and target rows do not
correspond to the same observations. -/
theorem fit_target_misalignment :
    Forest.fit zeroDraw oneTreeModel [missingRow, presentRow] [10, 20] () =
      .ok [some ⟨[0], [1], [0], [10]⟩] ∧
    (⟨[0], [1], [0], [10]⟩ : Forest.MemberFitCall).feature_row_ids ≠
      (⟨[0], [1], [0], [10]⟩ : Forest.MemberFitCall).target_row_ids := by
  constructor
  · unfold Forest.fit
    have hk : Forest.num_observations_per_estimator
        oneTreeModel.samples_fraction_per_estimator
        ([missingRow, presentRow] : List Forest.Row).length = 2 := by
      simp [Forest.num_observations_per_estimator, oneTreeModel]
    rw [hk]
    rfl
  · decide

/-- Claim C3, code bug, evaluating the code at the failing input: With one member over
dimension `x` and a single observation whose `x` is missing, zero rows
survive the member's filter and `fit` raises `ValueError: low >= high` from
`np.random.randint(0, 0, 0)` instead of skipping the member. -/
theorem fit_error_on_empty_filter :
    Forest.fit zeroDraw oneTreeModel [missingRow] [10] () = .error "low >= high" := by
  unfold Forest.fit
  have hk : Forest.num_observations_per_estimator
      oneTreeModel.samples_fraction_per_estimator
      ([missingRow] : List Forest.Row).length = 1 := by
    simp [Forest.num_observations_per_estimator, oneTreeModel]
  rw [hk]
  rfl

end MlosSpec
